import Mathlib

/-!
Verification development for the httpgate routing core.

Embedding conventions:
* Rust `String`/`&str` values are modelled as `List Char`.
* The `DashMap` registries are modelled as association lists with
  lookup-by-first-match; all mutating operations return the new state.
* Machine integer `u16` is modelled as `Nat` together with the explicit
  bound 65535 where the code's `parse::<u16>` enforces it.
* Host strings are modelled over the ASCII character classes of the
  pattern in `proxy.rs` (`[a-z]`, `[0-9]`, `-`, `.`-separator): the `\d`
  class is modelled as the ASCII digits, matching the subsequent
  `u16` parsing step (a non-ASCII digit in the port group always makes
  `parse::<u16>` fail, so such hosts are rejected either way, and no
  claim concerns non-ASCII identifiers).
-/

namespace Httpgate

/-! ## Host parsing (proxy.rs, `HOST_REGEX` and `DevboxProxy::parse_host`)

The regex is `^([a-z\d](?:[-a-z\d]*[a-z\d])?)-(\d+)\.`, applied by
`Regex::captures` after stripping everything from the first `:` on.
Because every character matched before the literal `\.` is drawn from
classes that exclude `.`, a successful match consumes exactly the
segment before the first dot plus that dot, so the match exists iff the
input contains a dot and the segment `pre` before the first dot splits
as `id ++ "-" ++ ds` with `ds` a nonempty digit run and `id` matching
the identifier grammar.  At most one hyphen of `pre` can be followed by
a digits-only suffix (a later hyphen is itself not a digit), so the
greedy (leftmost-first) split is at the last hyphen of `pre`, i.e. the
capture groups are: `ds` = the maximal trailing digit run of `pre`,
preceded by a `-`, and `id` = everything before that hyphen. -/

/-- Character class `[a-z\d]` of the host regex (ASCII reading, see header). -/
def isLowerAlnum (c : Char) : Bool := c.isLower || c.isDigit

/-- Character class `[-a-z\d]` of the host regex. -/
def isIdChar (c : Char) : Bool := isLowerAlnum c || decide (c = '-')

/-- Matches `(?:[-a-z\d]*[a-z\d])?`: empty, or all characters in
`[-a-z\d]` with the last one in `[a-z\d]`. -/
def validIdTail (l : List Char) : Bool :=
  match l.getLast? with
  | none => true
  | some c => l.all isIdChar && isLowerAlnum c

/-- Capture group 1 of `HOST_REGEX`: `[a-z\d](?:[-a-z\d]*[a-z\d])?`. -/
def validId : List Char → Bool
  | [] => false
  | c :: rest => isLowerAlnum c && validIdTail rest

/-- Models `host.split(':').next().unwrap_or(host)` in `parse_host`:
the characters before the first `:` (the whole string if none). -/
def stripClientPort (host : List Char) : List Char :=
  host.takeWhile fun c => decide (c ≠ ':')

/-- Segment strictly before the first `.`, or `none` if the string has
no dot (in which case `HOST_REGEX` cannot match). -/
def splitAtFirstDot (h : List Char) : Option (List Char) :=
  if h.any (fun c => decide (c = '.')) then
    some (h.takeWhile fun c => decide (c ≠ '.'))
  else none

/-- Capture groups of `HOST_REGEX` on the segment before the first dot:
the maximal trailing digit run (group 2), which must be nonempty and be
preceded by a hyphen, preceded in turn by a grammar-valid identifier
(group 1).  See the section comment for why this is exactly the
leftmost-first match of the regex. -/
def preCaptures (pre : List Char) : Option (List Char × List Char) :=
  let r := pre.reverse
  let dsr := r.takeWhile Char.isDigit
  let idr := r.dropWhile Char.isDigit
  if idr.head? = some '-' then
    if dsr.isEmpty then none
    else if validId idr.tail.reverse then some (idr.tail.reverse, dsr.reverse)
    else none
  else none

/-- Result of `HOST_REGEX.captures`: `(uniqueID, port-digit-run)`. -/
def hostCaptures (h : List Char) : Option (List Char × List Char) :=
  match splitAtFirstDot h with
  | none => none
  | some pre => preCaptures pre

/-- Numeric value of a decimal digit character. -/
def digitVal (c : Char) : Nat := c.toNat - 48

/-- Value of a decimal digit string (most significant digit first). -/
def decVal (ds : List Char) : Nat :=
  ds.foldl (fun a c => a * 10 + digitVal c) 0

/-- Models `str::parse::<u16>` on the digit run captured by the regex:
succeeds iff the input is a nonempty all-digit string whose value fits
in a `u16`.  (Rust checks overflow incrementally with `checked_mul` /
`checked_add`; over nonnegative digits an intermediate overflow occurs
iff the final value exceeds the bound, so the two are extensionally
equal.) -/
def parseU16 (ds : List Char) : Option Nat :=
  if !ds.isEmpty && ds.all Char.isDigit && decide (decVal ds ≤ 65535) then
    some (decVal ds)
  else none

/-- Embeds `DevboxProxy::parse_host` (proxy.rs lines 63-72): strip a
trailing `:<client-port>` suffix, match `HOST_REGEX`, parse the port
capture as `u16`. -/
def parse_host (host : List Char) : Option (List Char × Nat) :=
  match hostCaptures (stripClientPort host) with
  | none => none
  | some (unique_id, ds) =>
    match parseU16 ds with
    | none => none
    | some port => some (unique_id, port)

/-! ## Registry (registry.rs, `DevboxRegistry`)

The `DashMap<String, DevboxInfo>` is modelled as an association list
with lookup-by-first-match; the insert/remove/filter discipline below
gives it exact finite-map semantics.  The Rust methods mutate `self`
and return the `bool` result; here each mutating operation returns the
pair (result, new state). -/

/-- Generic association-list lookup (first matching key). -/
def mapLookup {α β : Type} [DecidableEq α] (l : List (α × β)) (k : α) : Option β :=
  (l.find? fun p => decide (p.1 = k)).map Prod.snd

/-- Generic association-list insert-or-replace for key `k`. -/
def mapInsert {α β : Type} [DecidableEq α] (l : List (α × β)) (k : α) (v : β) :
    List (α × β) :=
  (k, v) :: l.filter fun p => decide (p.1 ≠ k)

/-- Generic association-list removal of key `k`. -/
def mapErase {α β : Type} [DecidableEq α] (l : List (α × β)) (k : α) :
    List (α × β) :=
  l.filter fun p => decide (p.1 ≠ k)

/-- Value type of the registry map in registry.rs: `DevboxInfo` holds
the namespace (field `namespace` in Rust; `ns` here because `namespace`
is a Lean keyword). -/
structure DevboxInfo where
  ns : List Char
deriving DecidableEq

/-- State of `DevboxRegistry` (registry.rs): the `DashMap` contents. -/
structure DevboxRegistry where
  inner : List (List Char × DevboxInfo)
deriving DecidableEq

/-- Embeds `DevboxRegistry::register`: insert-or-replace; the `bool` is
`insert(..).is_none()`, i.e. whether the key was absent before. -/
def DevboxRegistry.register (r : DevboxRegistry) (unique_id ns : List Char) :
    Bool × DevboxRegistry :=
  ((mapLookup r.inner unique_id).isNone, ⟨mapInsert r.inner unique_id ⟨ns⟩⟩)

/-- Embeds `DevboxRegistry::unregister`: remove; the `bool` is
`remove(..).is_some()`, i.e. whether the key was present. -/
def DevboxRegistry.unregister (r : DevboxRegistry) (unique_id : List Char) :
    Bool × DevboxRegistry :=
  ((mapLookup r.inner unique_id).isSome, ⟨mapErase r.inner unique_id⟩)

/-- Embeds `DevboxRegistry::clear`. -/
def DevboxRegistry.clear (_ : DevboxRegistry) : DevboxRegistry := ⟨[]⟩

/-- Embeds `DevboxRegistry::get` (a cloned-out snapshot read). -/
def DevboxRegistry.get (r : DevboxRegistry) (unique_id : List Char) :
    Option DevboxInfo :=
  mapLookup r.inner unique_id

/-- Embeds `DevboxRegistry::len`. -/
def DevboxRegistry.len (r : DevboxRegistry) : Nat := r.inner.length

/-! ## Watcher (watcher.rs, `DevboxWatcher::handle_event`)

The `Devbox` CRD type lives in crd.rs, which is not part of the files
at hand; the watcher only reads `devbox.unique_id()` (an optional
identifier) and `devbox.metadata.namespace` (an optional placement
scope), so `Devbox` is modelled as those two optional fields
(`metadata.name` is used only in log output). -/

structure Devbox where
  unique_id : Option (List Char)
  metadata_namespace : Option (List Char)
deriving DecidableEq

/-- One item of the watch stream consumed by `handle_event`: the
kube `Event` constructors `Apply`, `InitApply`, `Delete`, `Init`,
`InitDone`, or an `Err(watcher::Error)` item. -/
inductive WatchItem where
  | Apply (d : Devbox)
  | InitApply (d : Devbox)
  | Delete (d : Devbox)
  | Init
  | InitDone
  | ErrorItem
deriving DecidableEq

/-- Embeds `DevboxWatcher::handle_apply` (watcher.rs lines 107-137):
skip when `unique_id` is missing, skip when the namespace is missing,
otherwise register. -/
def handle_apply (reg : DevboxRegistry) (d : Devbox) : DevboxRegistry :=
  match d.unique_id with
  | none => reg
  | some uid =>
    match d.metadata_namespace with
    | none => reg
    | some ns => (reg.register uid ns).2

/-- Embeds `DevboxWatcher::handle_delete` (watcher.rs lines 139-143). -/
def handle_delete (reg : DevboxRegistry) (d : Devbox) : DevboxRegistry :=
  match d.unique_id with
  | some uid => (reg.unregister uid).2
  | none => reg

/-- Embeds `DevboxWatcher::handle_event` (watcher.rs lines 78-105) as
its effect on the registry.  `handle_event` always returns (the
enclosing `while let` keeps consuming the stream), so every arm —
including the `Err` arm, which only logs — yields a next registry
state. -/
def handle_event (reg : DevboxRegistry) (e : WatchItem) : DevboxRegistry :=
  match e with
  | WatchItem.Apply d => handle_apply reg d
  | WatchItem.InitApply d => handle_apply reg d
  | WatchItem.Delete d => handle_delete reg d
  | WatchItem.Init => reg.clear
  | WatchItem.InitDone => reg
  | WatchItem.ErrorItem => reg

/-! ## Backend resolution (proxy.rs, `DevboxProxy::resolve_backend`)

`resolve_backend` performs the two-step lookup
`registry.get_devbox(unique_id)` then
`registry.get_pod_ip(namespace, devbox_name)`.  Those two registry
methods (and the writers `register_devbox` / `update_pod_ip` invoked
by the tests in proxy.rs and by the runtime-instance watch) are not
among the files at hand — registry.rs holds only the single-map
variant — so the backing store is modelled from the spec below. -/

/-- Modelled from the spec: the location record returned by
`get_devbox`, holding the placement scope (namespace) and the workload
name sufficient to address the runtime instance ("Holds at minimum a
namespace/placement scope and a workload name sufficient to address
it"). -/
structure DevboxEntry where
  ns : List Char
  devbox_name : List Char
deriving DecidableEq

/-- Modelled from the spec: the full-design registry state behind
`resolve_backend` — the identifier → location map fed by the
workload-definition watch, and the (namespace, name) → pod-IP map fed
by the runtime-instance watch ("one over workload-definition objects
(identifier ↔ placement-scope/name mapping) and one over the
corresponding runtime-instance objects (placement-scope/name ↔
address)"). -/
structure GateState where
  devboxes : List (List Char × DevboxEntry)
  pod_ips : List ((List Char × List Char) × List Char)
deriving DecidableEq

/-- Modelled from the spec: `registry.get_devbox`, the identifier →
location lookup (step 1 of `resolve_backend`). -/
def get_devbox (st : GateState) (unique_id : List Char) : Option DevboxEntry :=
  mapLookup st.devboxes unique_id

/-- Modelled from the spec: `registry.get_pod_ip`, the
(namespace, name) → address lookup (step 2 of `resolve_backend`);
absence is the "registered but not running" state. -/
def get_pod_ip (st : GateState) (ns devbox_name : List Char) : Option (List Char) :=
  mapLookup st.pod_ips (ns, devbox_name)

/-- Modelled from the spec: `registry.register_devbox`, the upsert
performed for a workload-definition event (invoked by the proxy.rs
tests). -/
def register_devbox (st : GateState) (unique_id ns devbox_name : List Char) :
    GateState :=
  { st with devboxes := mapInsert st.devboxes unique_id ⟨ns, devbox_name⟩ }

/-- Modelled from the spec: removal of a workload-definition entry. -/
def unregister_devbox (st : GateState) (unique_id : List Char) : GateState :=
  { st with devboxes := mapErase st.devboxes unique_id }

/-- Modelled from the spec: `registry.update_pod_ip`, the address
update performed for a runtime-instance event (invoked by the proxy.rs
tests). -/
def update_pod_ip (st : GateState) (ns devbox_name ip : List Char) : GateState :=
  { st with pod_ips := mapInsert st.pod_ips (ns, devbox_name) ip }

/-- Embeds `BackendResult` (proxy.rs lines 13-20). -/
inductive BackendResult where
  | Ok (pod_ip : List Char) (port : Nat)
  | NotFound
  | NotRunning
deriving DecidableEq

/-- Embeds `DevboxProxy::resolve_backend` (proxy.rs lines 84-105):
step 1 looks up the devbox info by identifier (`NotFound` if absent),
step 2 looks up the pod IP by (namespace, devbox name) (`NotRunning`
if absent); otherwise the result carries the pod IP and the requested
port unchanged. -/
def resolve_backend (st : GateState) (unique_id : List Char) (port : Nat) :
    BackendResult :=
  match get_devbox st unique_id with
  | none => BackendResult.NotFound
  | some info =>
    match get_pod_ip st info.ns info.devbox_name with
    | none => BackendResult.NotRunning
    | some pod_ip => BackendResult.Ok pod_ip port

/-- Written after the spec's words for the refinement claim about
resolution (§4.3: "a pure function over a single Registry lookup"):
the single conceptual `lookup` returning the full LocationRecord — the
location data together with its optional address. -/
def spec_lookup (st : GateState) (unique_id : List Char) :
    Option (DevboxEntry × Option (List Char)) :=
  match get_devbox st unique_id with
  | none => none
  | some info => some (info, get_pod_ip st info.ns info.devbox_name)

/-- Written after the spec's words: the resolution outcome as a pure
function of the one looked-up record and the requested port
(`Resolved(address, port)` / `NotFound` / `NotReady`). -/
def spec_resolution_outcome (record : Option (DevboxEntry × Option (List Char)))
    (port : Nat) : BackendResult :=
  match record with
  | none => BackendResult.NotFound
  | some (_, none) => BackendResult.NotRunning
  | some (_, some pod_ip) => BackendResult.Ok pod_ip port

/-! ## Request routing (proxy.rs, `DevboxProxy::request_filter`) -/

/-- Outcome of `request_filter` for one request: either a terminal
response with the given status written via `send_not_found` /
`send_service_unavailable` (the Rust function returns `Ok(true)`), or
a forwarding instruction — the `ProxyCtx` handed to `upstream_peer` —
carrying the backend IP and port (the Rust function returns
`Ok(false)` to continue to the upstream). -/
inductive RequestOutcome where
  | respond (status : Nat)
  | forward (backend_ip : List Char) (backend_port : Nat)
deriving DecidableEq

/-- Embeds `DevboxProxy::request_filter` (proxy.rs lines 134-182) as a
function of the Host header value (an absent header is the empty
string, per `unwrap_or("")`) and the registry state: parse failure →
404; `NotFound` → 404; `NotRunning` → 503; `Ok` → forward.  There is
no recursion or retry: each request is decided by the single
resolution below. -/
def request_filter (st : GateState) (host : List Char) : RequestOutcome :=
  match parse_host host with
  | none => RequestOutcome.respond 404
  | some (unique_id, port) =>
    match resolve_backend st unique_id port with
    | BackendResult.NotFound => RequestOutcome.respond 404
    | BackendResult.NotRunning => RequestOutcome.respond 503
    | BackendResult.Ok ip p => RequestOutcome.forward ip p

/-! ## End-to-end sync events over the full-design state -/

/-- Modelled from the spec: one WatchEvent of the SyncProcess as
projected onto the full-design state (§4.4): `Init` clears the
identifier map for resync, `Upsert` records identifier → (scope, name),
`Delete` removes the identifier, `InitDone` mutates nothing.  The src
watcher (watcher.rs) implements this projection for the
workload-definition map; the runtime-instance feed is `update_pod_ip`
above. -/
inductive SyncEvent where
  | init
  | initDone
  | upsert (unique_id ns devbox_name : List Char)
  | delete (unique_id : List Char)

/-- Modelled from the spec: applying one SyncProcess event to the
full-design state. -/
def applySync (st : GateState) (e : SyncEvent) : GateState :=
  match e with
  | SyncEvent.init => { st with devboxes := [] }
  | SyncEvent.initDone => st
  | SyncEvent.upsert uid ns name => register_devbox st uid ns name
  | SyncEvent.delete uid => unregister_devbox st uid

/-! ## Supervisory restart loop (main.rs lines 55-63)

`DevboxWatcher::run` returns `Err` when client construction fails (the
`?` operators in `create_client`), and returns `Ok(())` after the
watch stream is exhausted (watcher.rs lines 70-75, after the warning
log).  Stream `Err(e)` items do not end the session at all: they are
consumed by `handle_event` and the `while let` continues.  The loop
body in main.rs runs one session, sleeps 5 seconds only in the
`if let Err` branch, and then unconditionally loops. -/

/-- Result of one `watcher.run().await` call as seen by the loop. -/
inductive SessionResult where
  | ok
  | err
deriving DecidableEq

/-- Ways a watch session can end, and the `run` result each produces. -/
inductive SessionEnd where
  | connectFailure
  | streamExhausted
deriving DecidableEq

/-- Embeds the result mapping of `DevboxWatcher::run`: a client
construction failure propagates as `Err`; an exhausted stream falls
through to `Ok(())`. -/
def runSessionResult : SessionEnd → SessionResult
  | SessionEnd.connectFailure => SessionResult.err
  | SessionEnd.streamExhausted => SessionResult.ok

/-- Embeds one iteration of the supervisory loop in main.rs: given the
session result, the seconds slept before the next session and whether
the loop continues (it always does — the `loop` has no break). -/
def supervisorIteration : SessionResult → Nat × Bool
  | SessionResult.err => (5, true)
  | SessionResult.ok => (0, true)

/-! ## List and character-class helper lemmas -/

/-- A predicate that holds of `c` and fails of `d` separates them. -/
theorem decide_ne_of_pred {p : Char → Bool} {c d : Char}
    (hc : p c = true) (hd : p d = false) : decide (c ≠ d) = true := by
  simp only [decide_eq_true_eq]
  intro h
  rw [h, hd] at hc
  exact Bool.noConfusion hc

theorem takeWhile_append_of_all {α : Type} {p : α → Bool} {l₁ l₂ : List α}
    (h : ∀ c ∈ l₁, p c = true) :
    (l₁ ++ l₂).takeWhile p = l₁ ++ l₂.takeWhile p := by
  induction l₁ with
  | nil => simp
  | cons c t ih =>
    rw [List.cons_append, List.takeWhile_cons_of_pos (h c (by simp)),
      ih fun x hx => h x (List.mem_cons_of_mem c hx), List.cons_append]

theorem dropWhile_append_of_all {α : Type} {p : α → Bool} {l₁ l₂ : List α}
    (h : ∀ c ∈ l₁, p c = true) :
    (l₁ ++ l₂).dropWhile p = l₂.dropWhile p := by
  induction l₁ with
  | nil => simp
  | cons c t ih =>
    rw [List.cons_append, List.dropWhile_cons_of_pos (h c (by simp)),
      ih fun x hx => h x (List.mem_cons_of_mem c hx)]

theorem all_reverse_of_all {α : Type} {p : α → Bool} {l : List α}
    (h : ∀ c ∈ l, p c = true) : ∀ c ∈ l.reverse, p c = true := by
  intro c hc
  exact h c (List.mem_reverse.mp hc)

theorem validId_all_isIdChar {l : List Char} (h : validId l = true) :
    ∀ c ∈ l, isIdChar c = true := by
  match l with
  | [] => exact fun c hc => absurd hc (List.not_mem_nil c)
  | c :: rest =>
    rw [validId, Bool.and_eq_true] at h
    intro x hx
    rcases List.mem_cons.mp hx with hx | hx
    · subst hx
      exact Bool.or_eq_true_iff.mpr (Or.inl h.1)
    · have htail := h.2
      rw [validIdTail] at htail
      match hlast : rest.getLast? with
      | none =>
        rw [List.getLast?_eq_none_iff.mp hlast] at hx
        exact absurd hx (List.not_mem_nil x)
      | some d =>
        rw [hlast, Bool.and_eq_true] at htail
        exact List.all_eq_true.mp htail.1 x hx

theorem validId_append_hyphen {u : List Char} :
    validId (u ++ ['-']) = false := by
  match u with
  | [] => decide
  | c :: rest =>
    rw [List.cons_append, validId, validIdTail, List.getLast?_concat]
    simp [isLowerAlnum]

/-! ## Evaluation of the host parser on structurally well-formed hosts -/

theorem stripClientPort_shape {uid ds rest : List Char}
    (hid : ∀ c ∈ uid, isIdChar c = true) (hdig : ∀ c ∈ ds, Char.isDigit c = true) :
    stripClientPort (uid ++ '-' :: (ds ++ '.' :: rest)) =
      uid ++ '-' :: (ds ++ '.' :: stripClientPort rest) := by
  rw [stripClientPort,
    takeWhile_append_of_all fun c hc => decide_ne_of_pred (hid c hc) (by decide : isIdChar ':' = false),
    List.takeWhile_cons_of_pos (by decide),
    takeWhile_append_of_all fun c hc => decide_ne_of_pred (hdig c hc) (by decide : Char.isDigit ':' = false),
    List.takeWhile_cons_of_pos (by decide), stripClientPort]

theorem splitAtFirstDot_shape {uid ds rest : List Char}
    (hid : ∀ c ∈ uid, isIdChar c = true) (hdig : ∀ c ∈ ds, Char.isDigit c = true) :
    splitAtFirstDot (uid ++ '-' :: (ds ++ '.' :: rest)) = some (uid ++ '-' :: ds) := by
  rw [splitAtFirstDot, if_pos]
  · rw [takeWhile_append_of_all fun c hc => decide_ne_of_pred (hid c hc) (by decide : isIdChar '.' = false),
      List.takeWhile_cons_of_pos (by decide),
      takeWhile_append_of_all fun c hc => decide_ne_of_pred (hdig c hc) (by decide : Char.isDigit '.' = false),
      List.takeWhile_cons_of_neg (by simp), List.append_nil]
  · rw [List.any_eq_true]
    exact ⟨'.', by simp, by decide⟩

theorem mem_of_mem_takeWhile {α : Type} {p : α → Bool} {l : List α} {a : α}
    (h : a ∈ l.takeWhile p) : a ∈ l := by
  induction l with
  | nil => exact absurd h (List.not_mem_nil a)
  | cons c t ih =>
    rw [List.takeWhile_cons] at h
    split at h
    · rcases List.mem_cons.mp h with h | h
      · exact h ▸ List.mem_cons_self c t
      · exact List.mem_cons_of_mem c (ih h)
    · exact absurd h (List.not_mem_nil a)

theorem exists_getLast?_mem {α : Type} {l : List α} (h : l ≠ []) :
    ∃ c, l.getLast? = some c ∧ c ∈ l := by
  induction l with
  | nil => exact absurd rfl h
  | cons a t ih =>
    cases t with
    | nil => exact ⟨a, rfl, List.mem_cons_self a []⟩
    | cons b t' =>
      obtain ⟨c, h1, h2⟩ := ih (List.cons_ne_nil b t')
      exact ⟨c, by rw [List.getLast?_cons_cons]; exact h1, List.mem_cons_of_mem a h2⟩

theorem preCaptures_split {uid ds : List Char}
    (hne : ds ≠ []) (hdig : ∀ c ∈ ds, Char.isDigit c = true) :
    preCaptures (uid ++ '-' :: ds) = if validId uid then some (uid, ds) else none := by
  have hrev : (uid ++ '-' :: ds).reverse = ds.reverse ++ '-' :: uid.reverse := by
    simp
  have hdw : (uid ++ '-' :: ds).reverse.dropWhile Char.isDigit = '-' :: uid.reverse := by
    rw [hrev, dropWhile_append_of_all (all_reverse_of_all hdig),
      List.dropWhile_cons_of_neg (by decide)]
  have htw : (uid ++ '-' :: ds).reverse.takeWhile Char.isDigit = ds.reverse := by
    rw [hrev, takeWhile_append_of_all (all_reverse_of_all hdig),
      List.takeWhile_cons_of_neg (by decide), List.append_nil]
  have hemp : ds.reverse.isEmpty = false := by
    cases hds : ds.reverse with
    | nil => exact absurd (List.reverse_eq_nil_iff.mp hds) hne
    | cons a t => rfl
  simp only [preCaptures, hdw, htw, List.head?_cons, List.tail_cons, hemp,
    List.reverse_reverse, if_true, Bool.false_eq_true, if_false, if_pos rfl]

theorem preCaptures_shape {uid ds : List Char}
    (hid : validId uid = true) (hne : ds ≠ []) (hdig : ∀ c ∈ ds, Char.isDigit c = true) :
    preCaptures (uid ++ '-' :: ds) = some (uid, ds) := by
  rw [preCaptures_split hne hdig, if_pos hid]

theorem parse_host_shape {uid ds rest : List Char}
    (hid : validId uid = true) (hne : ds ≠ []) (hdig : ∀ c ∈ ds, Char.isDigit c = true) :
    parse_host (uid ++ '-' :: (ds ++ '.' :: rest)) =
      if decVal ds ≤ 65535 then some (uid, decVal ds) else none := by
  have hidc := validId_all_isIdChar hid
  have hemp : ds.isEmpty = false := by
    cases ds with
    | nil => exact absurd rfl hne
    | cons a t => rfl
  simp only [parse_host, stripClientPort_shape hidc hdig, hostCaptures,
    splitAtFirstDot_shape hidc hdig, preCaptures_shape hid hne hdig, parseU16,
    hemp, Bool.not_false, Bool.true_and, Bool.and_eq_true, List.all_eq_true,
    decide_eq_true_eq]
  by_cases hle : decVal ds ≤ 65535
  · rw [if_pos ⟨hdig, hle⟩, if_pos hle]
  · rw [if_neg (fun h => hle h.2), if_neg hle]

theorem parse_host_split {uid ds rest : List Char}
    (hidc : ∀ c ∈ uid, isIdChar c = true) (hne : ds ≠ [])
    (hdig : ∀ c ∈ ds, Char.isDigit c = true) :
    parse_host (uid ++ '-' :: (ds ++ '.' :: rest)) =
      if validId uid then
        (if decVal ds ≤ 65535 then some (uid, decVal ds) else none)
      else none := by
  have hemp : ds.isEmpty = false := by
    cases ds with
    | nil => exact absurd rfl hne
    | cons a t => rfl
  by_cases hid : validId uid = true
  · rw [if_pos hid, ← parse_host_shape hid hne hdig]
  · rw [if_neg hid]
    simp only [parse_host, stripClientPort_shape hidc hdig, hostCaptures,
      splitAtFirstDot_shape hidc hdig, preCaptures_split hne hdig, if_neg hid]

theorem parse_host_append_colon (h x : List Char) :
    parse_host (h ++ ':' :: x) = parse_host h := by
  have hstrip : stripClientPort (h ++ ':' :: x) = stripClientPort h := by
    rw [stripClientPort, stripClientPort]
    induction h with
    | nil =>
      rw [List.nil_append, List.takeWhile_nil, List.takeWhile_cons_of_neg (by simp)]
    | cons c t ih =>
      by_cases hc : c = ':'
      · subst hc
        rw [List.cons_append, List.takeWhile_cons_of_neg (by simp),
          List.takeWhile_cons_of_neg (by simp)]
      · rw [List.cons_append, List.takeWhile_cons_of_pos (by simp [hc]),
          List.takeWhile_cons_of_pos (by simp [hc]), ih]
  rw [parse_host, parse_host, hstrip]

/-- Characterization of a successful regex match: the captures are a
grammar-valid identifier and a nonempty digit run, and together with
the separating hyphen they are exactly the segment before the first
dot. -/
theorem preCaptures_sound {pre uid ds : List Char}
    (h : preCaptures pre = some (uid, ds)) :
    validId uid = true ∧ ds ≠ [] ∧ (∀ c ∈ ds, Char.isDigit c = true) ∧
    pre = uid ++ '-' :: ds := by
  simp only [preCaptures] at h
  split at h
  case isFalse => exact absurd h (by simp)
  case isTrue hhead =>
    split at h
    case isTrue => exact absurd h (by simp)
    case isFalse hemp =>
      split at h
      case isFalse => exact absurd h (by simp)
      case isTrue hvalid =>
        rw [Option.some_inj, Prod.mk.injEq] at h
        obtain ⟨h1, h2⟩ := h
        have hdw : pre.reverse.dropWhile Char.isDigit =
            '-' :: (pre.reverse.dropWhile Char.isDigit).tail := by
          cases hd : pre.reverse.dropWhile Char.isDigit with
          | nil => rw [hd] at hhead; exact absurd hhead (by simp)
          | cons a t =>
            rw [hd] at hhead
            simp only [List.head?_cons, Option.some_inj] at hhead
            rw [hhead]
            rfl
        have hsplit := List.takeWhile_append_dropWhile Char.isDigit pre.reverse
        rw [hdw] at hsplit
        refine ⟨h1 ▸ hvalid, ?_, ?_, ?_⟩
        · rw [← h2]
          intro hnil
          exact hemp (by rw [List.reverse_eq_nil_iff.mp hnil]; rfl)
        · intro c hc
          rw [← h2] at hc
          exact List.mem_takeWhile_imp (List.mem_reverse.mp hc)
        · have := congrArg List.reverse hsplit
          rw [List.reverse_reverse] at this
          rw [← this, ← h1, ← h2]
          simp

/-- Characterization of `hostCaptures` on the stripped host: a match
implies the segment before the first dot is `uniqueID ++ "-" ++ digits`
with a grammar-valid identifier and a nonempty digit run. -/
theorem hostCaptures_sound {h uid ds : List Char}
    (hc : hostCaptures h = some (uid, ds)) :
    validId uid = true ∧ ds ≠ [] ∧ (∀ c ∈ ds, Char.isDigit c = true) ∧
    h.any (fun c => decide (c = '.')) = true ∧
    (h.takeWhile fun c => decide (c ≠ '.')) = uid ++ '-' :: ds := by
  rw [hostCaptures] at hc
  cases hdot : splitAtFirstDot h with
  | none => rw [hdot] at hc; exact absurd hc (by simp)
  | some pre =>
    rw [hdot] at hc
    dsimp only at hc
    obtain ⟨h1, h2, h3, h4⟩ := preCaptures_sound hc
    rw [splitAtFirstDot] at hdot
    split at hdot
    case isFalse => exact absurd hdot (by simp)
    case isTrue hany =>
      rw [Option.some_inj] at hdot
      exact ⟨h1, h2, h3, hany, hdot ▸ h4⟩

/-- Same characterization lifted to `parse_host`: any successful parse
comes from a host whose pre-dot segment (after stripping a client-port
suffix) has the shape `uniqueID ++ "-" ++ digits`. -/
theorem parse_host_sound {host : List Char} {uid : List Char} {p : Nat}
    (h : parse_host host = some (uid, p)) :
    ∃ ds, validId uid = true ∧ ds ≠ [] ∧ (∀ c ∈ ds, Char.isDigit c = true) ∧
      decVal ds = p ∧ p ≤ 65535 ∧
      (stripClientPort host).any (fun c => decide (c = '.')) = true ∧
      (stripClientPort host).takeWhile (fun c => decide (c ≠ '.')) = uid ++ '-' :: ds := by
  rw [parse_host] at h
  cases hcap : hostCaptures (stripClientPort host) with
  | none => rw [hcap] at h; exact absurd h (by simp)
  | some capture =>
    obtain ⟨uid', ds⟩ := capture
    rw [hcap] at h
    dsimp only at h
    cases hp : parseU16 ds with
    | none => rw [hp] at h; exact absurd h (by simp)
    | some q =>
      rw [hp, Option.some_inj, Prod.mk.injEq] at h
      obtain ⟨rfl, rfl⟩ := h
      rw [hostCaptures] at hcap
      cases hdot : splitAtFirstDot (stripClientPort host) with
      | none => rw [hdot] at hcap; exact absurd hcap (by simp)
      | some pre =>
        rw [hdot] at hcap
        obtain ⟨hvalid, hne, hdig, hpre⟩ := preCaptures_sound hcap
        rw [parseU16] at hp
        split at hp
        case isFalse => exact absurd hp (by simp)
        case isTrue hcond =>
          rw [Option.some_inj] at hp
          rw [splitAtFirstDot] at hdot
          split at hdot
          case isFalse => exact absurd hdot (by simp)
          case isTrue hany =>
            rw [Option.some_inj] at hdot
            simp only [Bool.and_eq_true, decide_eq_true_eq] at hcond
            exact ⟨ds, hvalid, hne, hdig, hp, hp ▸ hcond.2, hany, hdot ▸ hpre⟩

/-- C1: for every workload identifier matching the grammar
`[a-z0-9]([-a-z0-9]*[a-z0-9])?` and every port value in `[0, 65535]`
(written as any decimal digit string `ds` with `decVal ds ≤ 65535`),
`parse_host` applied to `id ++ "-" ++ ds ++ "." ++ rest` returns
`some (id, decVal ds)` for any `rest`; since `id` ranges over all
grammar-valid identifiers, including ones containing digit runs such as
`app123-test456`, the identifier extends to the last hyphen-digit-run
boundary before the first dot; and appending `":" ++ anything` to the
host leaves the result unchanged. -/
theorem C1_parse_host_accepts_valid_hosts (uid ds rest : List Char)
    (hid : validId uid = true) (hne : ds ≠ [])
    (hdig : ∀ c ∈ ds, Char.isDigit c = true) (hle : decVal ds ≤ 65535) :
    parse_host (uid ++ '-' :: (ds ++ '.' :: rest)) = some (uid, decVal ds) ∧
    ∀ extra, parse_host ((uid ++ '-' :: (ds ++ '.' :: rest)) ++ ':' :: extra) =
      some (uid, decVal ds) := by
  have h1 : parse_host (uid ++ '-' :: (ds ++ '.' :: rest)) = some (uid, decVal ds) := by
    rw [parse_host_shape hid hne hdig, if_pos hle]
  exact ⟨h1, fun extra => by rw [parse_host_append_colon, h1]⟩

/-- Witness for C1 at the host `app123-test456-3000.io` (an identifier
with internal digit runs) and client-port suffix `:443`. -/
theorem C1_witness :
    parse_host (['a','p','p','1','2','3','-','t','e','s','t','4','5','6'] ++
      '-' :: (['3','0','0','0'] ++ '.' :: ['i','o'])) =
      some (['a','p','p','1','2','3','-','t','e','s','t','4','5','6'], 3000) ∧
    parse_host ((['a','p','p','1','2','3','-','t','e','s','t','4','5','6'] ++
      '-' :: (['3','0','0','0'] ++ '.' :: ['i','o'])) ++ ':' :: ['4','4','3']) =
      some (['a','p','p','1','2','3','-','t','e','s','t','4','5','6'], 3000) :=
  ⟨(C1_parse_host_accepts_valid_hosts
      ['a','p','p','1','2','3','-','t','e','s','t','4','5','6'] ['3','0','0','0'] ['i','o']
      (by decide) (by decide) (by decide) (by decide)).1,
   (C1_parse_host_accepts_valid_hosts
      ['a','p','p','1','2','3','-','t','e','s','t','4','5','6'] ['3','0','0','0'] ['i','o']
      (by decide) (by decide) (by decide) (by decide)).2 ['4','4','3']⟩

/-- C9: `parse_host` returns `none` for the empty string; for any input
with no literal dot; for any input whose segment before the first dot
(after stripping a client-port suffix) does not end in a digit, i.e.
has no digit run immediately before the dot; for any input whose
stripped form starts with a hyphen (the identifier portion would start
with a hyphen); and for any input with a double hyphen immediately
before the port digits (the identifier portion would end with a
hyphen). -/
theorem C9_parse_host_rejections :
    parse_host [] = none ∧
    (∀ host : List Char,
      host.any (fun c => decide (c = '.')) = false → parse_host host = none) ∧
    (∀ host : List Char,
      (∀ c, ((stripClientPort host).takeWhile fun c => decide (c ≠ '.')).getLast? = some c →
        Char.isDigit c = false) →
      parse_host host = none) ∧
    (∀ host : List Char,
      (stripClientPort host).head? = some '-' → parse_host host = none) ∧
    (∀ u ds rest : List Char, (∀ c ∈ u, isIdChar c = true) → ds ≠ [] →
      (∀ c ∈ ds, Char.isDigit c = true) →
      parse_host (u ++ '-' :: '-' :: (ds ++ '.' :: rest)) = none) := by
  refine ⟨rfl, ?_, ?_, ?_, ?_⟩
  · intro host hnodot
    cases hcap : hostCaptures (stripClientPort host) with
    | none => simp [parse_host, hcap]
    | some capture =>
      obtain ⟨uid, ds⟩ := capture
      obtain ⟨-, -, -, hany, -⟩ := hostCaptures_sound hcap
      rw [List.any_eq_true] at hany
      obtain ⟨c, hmem, hc⟩ := hany
      have : host.any (fun c => decide (c = '.')) = true :=
        List.any_eq_true.mpr ⟨c, mem_of_mem_takeWhile hmem, hc⟩
      rw [this] at hnodot
      exact Bool.noConfusion hnodot
  · intro host hlast
    cases hcap : hostCaptures (stripClientPort host) with
    | none => simp [parse_host, hcap]
    | some capture =>
      obtain ⟨uid, ds⟩ := capture
      obtain ⟨-, hne, hdig, -, hpre⟩ := hostCaptures_sound hcap
      obtain ⟨c, hc1, hc2⟩ := exists_getLast?_mem hne
      have hlast2 : ((stripClientPort host).takeWhile fun c => decide (c ≠ '.')).getLast? =
          some c := by
        rw [hpre, List.getLast?_append_of_ne_nil _ (List.cons_ne_nil '-' ds)]
        cases ds with
        | nil => exact absurd rfl hne
        | cons d t => rw [List.getLast?_cons_cons]; exact hc1
      have hfalse := hlast c hlast2
      have htrue := hdig c hc2
      rw [htrue] at hfalse
      exact Bool.noConfusion hfalse
  · intro host hhead
    cases hcap : hostCaptures (stripClientPort host) with
    | none => simp [parse_host, hcap]
    | some capture =>
      obtain ⟨uid, ds⟩ := capture
      obtain ⟨hvalid, -, -, -, hpre⟩ := hostCaptures_sound hcap
      have hcons : stripClientPort host = '-' :: (stripClientPort host).tail := by
        cases hs : stripClientPort host with
        | nil => rw [hs] at hhead; exact absurd hhead (by simp)
        | cons a t =>
          rw [hs] at hhead
          simp only [List.head?_cons, Option.some_inj] at hhead
          rw [hhead]
          rfl
      rw [hcons, List.takeWhile_cons_of_pos (by decide)] at hpre
      cases uid with
      | nil => exact absurd hvalid (by simp [validId])
      | cons a t =>
        rw [List.cons_append] at hpre
        injection hpre with ha htl
        rw [← ha, validId, (by decide : isLowerAlnum '-' = false),
          Bool.false_and] at hvalid
        exact Bool.noConfusion hvalid
  · intro u ds rest hu hne hdig
    have heq : u ++ '-' :: '-' :: (ds ++ '.' :: rest) =
        (u ++ ['-']) ++ '-' :: (ds ++ '.' :: rest) := by
      simp
    have hu' : ∀ c ∈ u ++ ['-'], isIdChar c = true := by
      intro c hc
      rcases List.mem_append.mp hc with hc | hc
      · exact hu c hc
      · rw [List.mem_singleton.mp hc]
        decide
    rw [heq, parse_host_split hu' hne hdig, if_neg]
    rw [validId_append_hyphen]
    exact Bool.noConfusion

/-- Witness for C9: concrete rejected hosts — `a-80` (no dot),
`invalid.example.com` shortened to `invalid.ex` (no digit run before
the dot), `-inv-80.x` (identifier would start with a hyphen),
`inv--80.x` (double hyphen before the port digits), and the empty
string. -/
theorem C9_witness :
    parse_host [] = none ∧
    parse_host ['a','-','8','0'] = none ∧
    parse_host ['i','n','v','a','l','i','d','.','e','x'] = none ∧
    parse_host ['-','i','n','v','-','8','0','.','x'] = none ∧
    parse_host (['i','n','v'] ++ '-' :: '-' :: (['8','0'] ++ '.' :: ['x'])) = none :=
  ⟨C9_parse_host_rejections.1,
   C9_parse_host_rejections.2.1 ['a','-','8','0'] (by decide),
   C9_parse_host_rejections.2.2.1 ['i','n','v','a','l','i','d','.','e','x']
     (fun c hc => (Option.some_inj.mp hc) ▸ (by decide : Char.isDigit 'd' = false)),
   C9_parse_host_rejections.2.2.2.1 ['-','i','n','v','-','8','0','.','x'] (by decide),
   C9_parse_host_rejections.2.2.2.2 ['i','n','v'] ['8','0'] ['x']
     (by decide) (by decide) (by decide)⟩

/-- C10: any host of the structural shape
`identifier ++ "-" ++ digits ++ "." ++ rest` whose digit run denotes a
value greater than 65535 is rejected by `parse_host`, because the port
capture must parse as a 16-bit unsigned integer. -/
theorem C10_parse_host_port_overflow (uid ds rest : List Char)
    (hid : validId uid = true) (hne : ds ≠ [])
    (hdig : ∀ c ∈ ds, Char.isDigit c = true) (hgt : 65535 < decVal ds) :
    parse_host (uid ++ '-' :: (ds ++ '.' :: rest)) = none := by
  rw [parse_host_shape hid hne hdig, if_neg (Nat.not_le.mpr hgt)]

/-- Witness for C10 at the host `a-99999.x`. -/
theorem C10_witness :
    parse_host (['a'] ++ '-' :: (['9','9','9','9','9'] ++ '.' :: ['x'])) = none :=
  C10_parse_host_port_overflow ['a'] ['9','9','9','9','9'] ['x']
    (by decide) (by decide) (by decide) (by decide)

/-! ## Registry map laws -/

theorem mapLookup_insert_self {α β : Type} [DecidableEq α]
    (l : List (α × β)) (k : α) (v : β) :
    mapLookup (mapInsert l k v) k = some v := by
  rw [mapLookup, mapInsert, List.find?_cons_of_pos _ (by simp)]
  rfl

theorem mapLookup_erase_self {α β : Type} [DecidableEq α]
    (l : List (α × β)) (k : α) :
    mapLookup (mapErase l k) k = none := by
  rw [mapLookup, mapErase, List.find?_eq_none.mpr]
  · rfl
  · intro p hp
    have := (List.mem_filter.mp hp).2
    simp only [decide_eq_true_eq] at this ⊢
    exact this

theorem mapErase_of_lookup_none {α β : Type} [DecidableEq α]
    {l : List (α × β)} {k : α} (h : mapLookup l k = none) :
    mapErase l k = l := by
  rw [mapLookup, Option.map_eq_none', List.find?_eq_none] at h
  rw [mapErase, List.filter_eq_self.mpr]
  intro p hp
  simp only [decide_eq_true_eq]
  intro hk
  exact h p hp (by simp [hk])

/-- C5: finite-map laws of the registry (registry.rs names:
`register`/`unregister`/`clear`/`get` are the spec's
upsert/remove/reset/lookup).  After `register id ns`, `get id` returns
the new record; after `unregister id`, `get id` returns absence;
`register` returns `true` exactly when the key was absent immediately
before the call (so `false` on an update); `unregister` returns `true`
exactly when the key was present; and after `clear`, `get` returns
absence for every key until a new `register` for that key occurs. -/
theorem C5_registry_map_laws :
    (∀ (r : DevboxRegistry) (id ns : List Char),
      ((r.register id ns).2).get id = some ⟨ns⟩) ∧
    (∀ (r : DevboxRegistry) (id : List Char),
      ((r.unregister id).2).get id = none) ∧
    (∀ (r : DevboxRegistry) (id ns : List Char),
      ((r.register id ns).1 = true ↔ r.get id = none)) ∧
    (∀ (r : DevboxRegistry) (id : List Char),
      ((r.unregister id).1 = true ↔ r.get id ≠ none)) ∧
    (∀ (r : DevboxRegistry) (id : List Char), (r.clear).get id = none) := by
  refine ⟨?_, ?_, ?_, ?_, ?_⟩
  · intro r id ns
    exact mapLookup_insert_self r.inner id ⟨ns⟩
  · intro r id
    exact mapLookup_erase_self r.inner id
  · intro r id ns
    rw [DevboxRegistry.register, DevboxRegistry.get, Option.isNone_iff_eq_none]
  · intro r id
    rw [DevboxRegistry.unregister, DevboxRegistry.get, Option.isSome_iff_ne_none]
  · intro r id
    rfl

/-- C3: `handle_event` projects each watch item into exactly the
specified registry mutation — `Init` clears the registry;
`Apply`/`InitApply` carrying both an identifier and a namespace
registers identifier → record; `Apply`/`InitApply` missing either
field leaves the registry unchanged (the event is discarded and the
stream continues); `Delete` removes the identifier's entry, doing
nothing when the identifier is missing or the entry is already absent;
`InitDone` (and an error item) performs no registry mutation. -/
theorem C3_handle_event_projection :
    ∀ (reg : DevboxRegistry) (d : Devbox),
      handle_event reg WatchItem.Init = (⟨[]⟩ : DevboxRegistry) ∧
      handle_event reg WatchItem.InitDone = reg ∧
      handle_event reg WatchItem.ErrorItem = reg ∧
      (∀ uid ns, d.unique_id = some uid → d.metadata_namespace = some ns →
        handle_event reg (WatchItem.Apply d) = (reg.register uid ns).2 ∧
        handle_event reg (WatchItem.InitApply d) = (reg.register uid ns).2 ∧
        (handle_event reg (WatchItem.Apply d)).get uid = some ⟨ns⟩) ∧
      (d.unique_id = none ∨ d.metadata_namespace = none →
        handle_event reg (WatchItem.Apply d) = reg ∧
        handle_event reg (WatchItem.InitApply d) = reg) ∧
      (∀ uid, d.unique_id = some uid →
        handle_event reg (WatchItem.Delete d) = (reg.unregister uid).2 ∧
        (handle_event reg (WatchItem.Delete d)).get uid = none ∧
        (reg.get uid = none → handle_event reg (WatchItem.Delete d) = reg)) ∧
      (d.unique_id = none → handle_event reg (WatchItem.Delete d) = reg) := by
  intro reg d
  refine ⟨rfl, rfl, rfl, ?_, ?_, ?_, ?_⟩
  · intro uid ns h1 h2
    refine ⟨?_, ?_, ?_⟩
    · simp only [handle_event, handle_apply, h1, h2]
    · simp only [handle_event, handle_apply, h1, h2]
    · simp only [handle_event, handle_apply, h1, h2]
      exact mapLookup_insert_self reg.inner uid ⟨ns⟩
  · intro h
    rcases h with h | h
    · exact ⟨by simp only [handle_event, handle_apply, h], by simp only [handle_event, handle_apply, h]⟩
    · cases h1 : d.unique_id with
      | none => exact ⟨by simp only [handle_event, handle_apply, h1], by simp only [handle_event, handle_apply, h1]⟩
      | some uid => exact ⟨by simp only [handle_event, handle_apply, h1, h], by simp only [handle_event, handle_apply, h1, h]⟩
  · intro uid h1
    refine ⟨by simp only [handle_event, handle_delete, h1], ?_, ?_⟩
    · simp only [handle_event, handle_delete, h1]
      exact mapLookup_erase_self reg.inner uid
    · intro hnone
      simp only [handle_event, handle_delete, h1, DevboxRegistry.unregister]
      rw [mapErase_of_lookup_none hnone]
  · intro h1
    simp only [handle_event, handle_delete, h1]

/-- Witness for C3: a well-formed apply registers, an apply with a
missing namespace is discarded, and a delete leaves the identifier
absent. -/
theorem C3_witness :
    handle_event ⟨[]⟩ (WatchItem.Apply ⟨some ['x'], some ['n','s']⟩) =
      ((⟨[]⟩ : DevboxRegistry).register ['x'] ['n','s']).2 ∧
    handle_event ⟨[]⟩ (WatchItem.Apply ⟨some ['x'], none⟩) = (⟨[]⟩ : DevboxRegistry) ∧
    (handle_event ⟨[]⟩ (WatchItem.Delete ⟨some ['x'], none⟩)).get ['x'] = none :=
  ⟨((C3_handle_event_projection ⟨[]⟩ ⟨some ['x'], some ['n','s']⟩).2.2.2.1
      ['x'] ['n','s'] rfl rfl).1,
   ((C3_handle_event_projection ⟨[]⟩ ⟨some ['x'], none⟩).2.2.2.2.1 (Or.inr rfl)).1,
   ((C3_handle_event_projection ⟨[]⟩ ⟨some ['x'], none⟩).2.2.2.2.2.1 ['x'] rfl).2.1⟩

/-- C2: `resolve_backend` returns `NotFound` exactly when no record is
registered for the identifier; `NotRunning` (the spec's `NotReady`)
exactly when a record is registered but no pod IP is available for its
(namespace, name); and `Ok (A, p)` — with `A` the registered address
and `p` the requested port passed through unchanged (no validation
that the upstream listens there) — when both are present. -/
theorem C2_resolve_backend_cases :
    ∀ (st : GateState) (uid : List Char) (p : Nat),
      (resolve_backend st uid p = BackendResult.NotFound ↔
        get_devbox st uid = none) ∧
      (resolve_backend st uid p = BackendResult.NotRunning ↔
        ∃ info, get_devbox st uid = some info ∧
          get_pod_ip st info.ns info.devbox_name = none) ∧
      (∀ info ip, get_devbox st uid = some info →
        get_pod_ip st info.ns info.devbox_name = some ip →
        resolve_backend st uid p = BackendResult.Ok ip p) := by
  intro st uid p
  cases hdev : get_devbox st uid with
  | none =>
    refine ⟨by simp [resolve_backend, hdev], by simp [resolve_backend, hdev], ?_⟩
    intro info ip h1 _
    exact absurd h1 (by simp)
  | some info =>
    cases hip : get_pod_ip st info.ns info.devbox_name with
    | none =>
      refine ⟨by simp [resolve_backend, hdev, hip], ?_, ?_⟩
      · simp only [resolve_backend, hdev, hip]
        constructor
        · intro _
          exact ⟨info, rfl, hip⟩
        · intro _
          trivial
      · intro info' ip h1 h2
        rw [Option.some_inj] at h1
        rw [← h1, hip] at h2
        exact absurd h2 (by simp)
    | some ip =>
      refine ⟨by simp [resolve_backend, hdev, hip], ?_, ?_⟩
      · simp only [resolve_backend, hdev, hip]
        constructor
        · intro h
          exact absurd h (by simp)
        · intro ⟨info', h1, h2⟩
          rw [Option.some_inj] at h1
          rw [← h1, hip] at h2
          exact absurd h2 (by simp)
      · intro info' ip' h1 h2
        rw [Option.some_inj] at h1
        rw [← h1, hip, Option.some_inj] at h2
        simp only [resolve_backend, hdev, hip, h2]

/-- Witness for C2: a registered devbox with a pod IP resolves to that
IP and the requested port. -/
theorem C2_witness :
    resolve_backend
      (update_pod_ip (register_devbox ⟨[], []⟩ ['x'] ['n'] ['d']) ['n'] ['d'] ['i','p'])
      ['x'] 80 = BackendResult.Ok ['i','p'] 80 :=
  (C2_resolve_backend_cases
      (update_pod_ip (register_devbox ⟨[], []⟩ ['x'] ['n'] ['d']) ['n'] ['d'] ['i','p'])
      ['x'] 80).2.2 ⟨['n'], ['d']⟩ ['i','p'] rfl rfl

/-- C7: resolution is a pure function of a single conceptual registry
lookup: `resolve_backend st uid p` factors through `spec_lookup st uid`
— the one lookup returning the full location record together with its
optional address — composed with the pure outcome function of that
record and the requested port.  There is no retry or wait: the outcome
is fully determined by the one looked-up record and the port.  (The
code's two map reads, `get_devbox` then `get_pod_ip`, together
constitute this single LocationRecord lookup of the spec.) -/
theorem C7_resolve_pure_single_lookup :
    ∀ (st : GateState) (uid : List Char) (p : Nat),
      resolve_backend st uid p = spec_resolution_outcome (spec_lookup st uid) p := by
  intro st uid p
  cases hdev : get_devbox st uid with
  | none => simp [resolve_backend, spec_lookup, spec_resolution_outcome, hdev]
  | some info =>
    cases hip : get_pod_ip st info.ns info.devbox_name with
    | none => simp [resolve_backend, spec_lookup, spec_resolution_outcome, hdev, hip]
    | some ip => simp [resolve_backend, spec_lookup, spec_resolution_outcome, hdev, hip]

/-- C4: each request produces exactly one outcome (`request_filter` is
a total function): a 404 response when the Host header fails to parse
or the identifier is not registered; a 503 response when the
identifier is registered but has no pod IP; otherwise a forwarding
instruction carrying the resolved address and the parsed target port.
No retry occurs inside this path — the outcome is decided by the
single resolution shown. -/
theorem C4_request_filter_outcomes :
    ∀ (st : GateState) (host : List Char),
      (parse_host host = none → request_filter st host = RequestOutcome.respond 404) ∧
      (∀ uid p, parse_host host = some (uid, p) →
        (resolve_backend st uid p = BackendResult.NotFound →
          request_filter st host = RequestOutcome.respond 404) ∧
        (resolve_backend st uid p = BackendResult.NotRunning →
          request_filter st host = RequestOutcome.respond 503) ∧
        (∀ ip, resolve_backend st uid p = BackendResult.Ok ip p →
          request_filter st host = RequestOutcome.forward ip p)) := by
  intro st host
  constructor
  · intro h
    simp [request_filter, h]
  · intro uid p hparse
    refine ⟨?_, ?_, ?_⟩
    · intro hres
      simp [request_filter, hparse, hres]
    · intro hres
      simp [request_filter, hparse, hres]
    · intro ip hres
      simp [request_filter, hparse, hres]

/-- Witness for C4: an unparsable host yields 404 on the empty state;
a registered devbox with a pod IP yields a forwarding instruction. -/
theorem C4_witness :
    request_filter ⟨[], []⟩ ['z'] = RequestOutcome.respond 404 ∧
    request_filter
      (update_pod_ip (register_devbox ⟨[], []⟩ ['x'] ['n'] ['d']) ['n'] ['d'] ['i','p'])
      ['x','-','8','0','.','a'] = RequestOutcome.forward ['i','p'] 80 :=
  ⟨(C4_request_filter_outcomes ⟨[], []⟩ ['z']).1 rfl,
   ((C4_request_filter_outcomes
       (update_pod_ip (register_devbox ⟨[], []⟩ ['x'] ['n'] ['d']) ['n'] ['d'] ['i','p'])
       ['x','-','8','0','.','a']).2 ['x'] 80 (by decide)).2.2 ['i','p'] rfl⟩

/-- C6: applying the watch-event sequence `[Init, Upsert("x", ns1),
InitDone]` and then a runtime-instance update assigning address
`10.0.0.5` to the `ns1`-scoped instance makes
`resolve_backend _ "x" 8080` return `Ok("10.0.0.5", 8080)`; a
subsequent `Delete("x")` makes it return `NotFound`. -/
theorem C6_end_to_end_resolution :
    resolve_backend
      (update_pod_ip
        (List.foldl applySync ⟨[], []⟩
          [SyncEvent.init, SyncEvent.upsert ['x'] ['n','s','1'] ['x'], SyncEvent.initDone])
        ['n','s','1'] ['x'] ['1','0','.','0','.','0','.','5'])
      ['x'] 8080 = BackendResult.Ok ['1','0','.','0','.','0','.','5'] 8080 ∧
    resolve_backend
      (applySync
        (update_pod_ip
          (List.foldl applySync ⟨[], []⟩
            [SyncEvent.init, SyncEvent.upsert ['x'] ['n','s','1'] ['x'], SyncEvent.initDone])
          ['n','s','1'] ['x'] ['1','0','.','0','.','0','.','5'])
        (SyncEvent.delete ['x']))
      ['x'] 8080 = BackendResult.NotFound :=
  ⟨rfl, rfl⟩

/-- Counterexample for C8 as stated: the claim asserts that successive
restart attempts are always separated by a several-second (5 s) backoff
delay, including when the stream is exhausted without an explicit
error; but a session that ends with an exhausted stream returns
`Ok(())`, for which the loop in main.rs sleeps 0 seconds before
restarting. -/
theorem C8_counterexample :
    ¬ 5 ≤ (supervisorIteration (runSessionResult SessionEnd.streamExhausted)).1 := by
  decide

/-- C8 (amended): whenever a watch session terminates — on a
connection failure (an `Err` result) or on the stream being exhausted
without an explicit error (an `Ok` result) — the supervisory loop
always starts a new session and never gives up; but only a failed
session is followed by the 5-second backoff delay, while an
exhausted-stream session is restarted immediately with no delay
(stream error items do not terminate a session at all: they are logged
and the stream continues). -/
theorem C8_supervisor_restart_amended :
    (∀ r : SessionResult, (supervisorIteration r).2 = true) ∧
    (supervisorIteration (runSessionResult SessionEnd.connectFailure)).1 = 5 ∧
    (supervisorIteration (runSessionResult SessionEnd.streamExhausted)).1 = 0 :=
  ⟨fun r => by cases r <;> rfl, rfl, rfl⟩

end Httpgate
